import Mathlib

/-!
Verification of the span-explore derivation pipeline
(src/vue/src/use/span-explore.ts).

The composable turns one raw query result into consistent derived views:
raw `items` → `filteredItems` → `sortedItems` → `pageItems`, plus column,
error and per-type aggregate projections, while keeping the pager's item
count in sync with the filtered collection.  The definitions below are a
shallow embedding of that code; JavaScript objects become association
lists, machine values become `String`/`Int`, and the external
collaborators that are not part of this repository's `src` tree (the
pager composable, the attribute-key constants, the type classifier and
the SQL formatter) are modelled from the specification, as marked on
each definition.
-/

namespace SpanExplore

/-- Field values of an `ExploreItem`: the open record maps field names to
strings, numbers, or null. -/
inductive Val where
  | vStr (s : String)
  | vNum (n : Int)
  | vNull
  deriving DecidableEq

/-- An `ExploreItem` is an open mapping from field name to value
(`interface ExploreItem extends Record<string, any>`); JavaScript field
access `item[key]` is association-list lookup. -/
abbrev ExploreItem := List (String × Val)

/-- JavaScript property read `item[key]`: the first binding for `key`,
`none` when the field is absent (undefined). -/
def getField (item : ExploreItem) (key : String) : Option Val :=
  (item.find? (fun p => p.1 == key)).map (fun p => p.2)

/-- Modelled from the spec: the well-known "system" field key is a
configuration constant imported from `@/models/otelattr`, which is not
under src/. -/
def xkey.spanSystem : String := "span.system"

/-- Modelled from the spec: the well-known "time" field key imported from
`@/models/otelattr` (not under src/). -/
def xkey.spanTime : String := "span.time"

/-- Modelled from the spec: the default order column imported from
`@/models/otelattr` (not under src/). -/
def xkey.spanCountPerMin : String := "span.count_per_min"

/-- Modelled from the spec: `splitTypeSystem` from `@/models/otelattr`
(not under src/) splits a composite system string into the leading type
token and the full string, e.g. "http.client" has type "http". -/
def splitTypeSystem (s : String) : String × String :=
  (String.mk (s.data.takeWhile (fun c => c != '.')), s)

/-- JavaScript truthiness of a field value, as used by `if (!system)`:
undefined is handled by the caller; empty string, zero and null are
falsy. -/
def isTruthy : Val → Bool
  | .vStr s => s != ""
  | .vNum n => n != 0
  | .vNull => false

/-- JavaScript string conversion of a value, used when a non-string
reaches the classifier. -/
def valString : Val → String
  | .vStr s => s
  | .vNum n => toString n
  | .vNull => "null"

/-- The leading type token of a system field value (`splitTypeSystem`
destructured as `const [typ] = splitTypeSystem(system)`). -/
def classifyVal (v : Val) : String :=
  (splitTypeSystem (valString v)).1

/-- The `filteredItems` computed: if the type filter is empty the raw
items are returned unchanged; otherwise an item is kept when its system
field is falsy (absent or empty) or its classified type occurs in the
filter (`typeFilter.value.indexOf(typ) >= 0`). -/
def filteredItems (its : List ExploreItem) (typeFilter : List String) : List ExploreItem :=
  if typeFilter.length = 0 then
    its
  else
    its.filter (fun item =>
      match getField item xkey.spanSystem with
      | none => true
      | some system =>
        if !isTruthy system then true
        else typeFilter.contains (classifyVal system))

/-- The order state held by the `useOrder` composable: sort column
(null means no sort) and direction. -/
structure Order where
  column : Option String
  desc : Bool

/-- String suffix test, on the underlying character lists. -/
def strEndsWith (s suffixStr : String) : Bool :=
  suffixStr.data.isSuffixOf s.data

/-- Suffix test `s.endsWith('.' + field) || s.endsWith('_' + field)`. -/
def hasField (s field : String) : Bool :=
  strEndsWith s ("." ++ field) || strEndsWith s ("_" ++ field)

/-- Date-likeness of a column name: equal to the span time key, or
ending in a `.time`/`_time`/`.date`/`_date` suffix. -/
def isDateField (s : String) : Bool :=
  s == xkey.spanTime || hasField s "time" || hasField s "date"

/-- Decimal digit value of a character, `none` for a non-digit
(code points 48 through 57 are the decimal digits). -/
def digitVal (c : Char) : Option Nat :=
  if 48 ≤ c.toNat ∧ c.toNat ≤ 57 then some (c.toNat - 48) else none

/-- Decimal reading of a digit sequence, `none` when a non-digit
occurs. -/
def parseDigits : List Char → Nat → Option Nat
  | [], n => some n
  | c :: cs, n =>
    match digitVal c with
    | none => none
    | some d => parseDigits cs (n * 10 + d)

/-- Numeric reading of a string: `some` exactly for non-empty strings of
decimal digits. -/
def strToNat (s : String) : Option Nat :=
  match s.data with
  | [] => none
  | c :: cs => parseDigits (c :: cs) 0

/-- Modelled: JavaScript `new Date(string)` timestamp parsing, abstracted
to decimal digit strings; any other string is unparseable (an Invalid
Date, i.e. `none`). -/
def parseDateStr (s : String) : Option Int :=
  (strToNat s).map Int.ofNat

/-- The timestamp `new Date(val)` yields for a field value: numbers are
milliseconds since epoch, strings are parsed (unparseable gives an
Invalid Date, `none`), null coerces to epoch 0, and an absent field
(undefined) gives an Invalid Date. -/
def dateKey : Option Val → Option Int
  | none => none
  | some (.vNum n) => some n
  | some (.vStr s) => parseDateStr s
  | some .vNull => some 0

/-- The sort key the `orderBy` iteratee returns for an item: a Date when
the column is date-like, otherwise the raw field value. -/
inductive SortKey where
  | dKey (t : Option Int)
  | rKey (v : Option Val)
  deriving DecidableEq

/-- Three-way integer comparison mirroring the `value > other` /
`value < other` checks of lodash `compareAscending`. -/
def cmpInt (a b : Int) : Ordering :=
  if a > b then .gt else if a < b then .lt else .eq

/-- Three-way character comparison by code point. -/
def cmpChar (a b : Char) : Ordering :=
  if a.toNat > b.toNat then .gt else if a.toNat < b.toNat then .lt else .eq

/-- Lexicographic three-way comparison of character lists. -/
def cmpCharList : List Char → List Char → Ordering
  | [], [] => .eq
  | [], _ :: _ => .lt
  | _ :: _, [] => .gt
  | a :: as, b :: bs =>
    match cmpChar a b with
    | .eq => cmpCharList as bs
    | o => o

/-- Three-way string comparison mirroring the `value > other` /
`value < other` checks of lodash `compareAscending` (JavaScript string
relational operators are lexicographic). -/
def cmpStr (a b : String) : Ordering :=
  cmpCharList a.data b.data

/-- Lodash `compareAscending` on raw field values: numbers numerically,
strings lexicographically, null after every other defined value; a
numeric string compares against a number by JavaScript coercion
(modelled for decimal digit strings, other mixed pairs compare equal). -/
def cmpVal : Val → Val → Ordering
  | .vNum a, .vNum b => cmpInt a b
  | .vStr a, .vStr b => cmpStr a b
  | .vNull, .vNull => .eq
  | .vNull, _ => .gt
  | _, .vNull => .lt
  | .vStr s, .vNum n =>
    match strToNat s with
    | some m => cmpInt (Int.ofNat m) n
    | none => .eq
  | .vNum n, .vStr s =>
    match strToNat s with
    | some m => cmpInt n (Int.ofNat m)
    | none => .eq

/-- Lodash `compareAscending` on two Date keys: valid dates compare by
timestamp; an Invalid Date (NaN time value) is neither less than nor
greater than anything, so it compares equal to every value. -/
def cmpDate : Option Int → Option Int → Ordering
  | some x, some y => cmpInt x y
  | _, _ => .eq

/-- Lodash `compareAscending` on raw keys, where `none` is JavaScript
undefined: undefined sorts after every defined value. -/
def cmpRaw : Option Val → Option Val → Ordering
  | some x, some y => cmpVal x y
  | some _, none => .lt
  | none, some _ => .gt
  | none, none => .eq

/-- Comparison of two sort keys (one sort uses keys of a single kind). -/
def cmpKey : SortKey → SortKey → Ordering
  | .dKey a, .dKey b => cmpDate a b
  | .rKey a, .rKey b => cmpRaw a b
  | .dKey _, .rKey _ => .eq
  | .rKey _, .dKey _ => .eq

/-- The `orderBy` iteratee from the `sortedItems` computed:
`isDate ? new Date(val) : val` for `val = item[order.column]`. -/
def sortKey (col : String) (item : ExploreItem) : SortKey :=
  if isDateField col then .dKey (dateKey (getField item col))
  else .rKey (getField item col)

/-- The effective item comparator of the sort step: key comparison,
negated when the direction is descending (lodash multiplies the
ascending result by -1 for 'desc'). -/
def itemCmp (d : Bool) (col : String) (a b : ExploreItem) : Ordering :=
  let c := cmpKey (sortKey col a) (sortKey col b)
  if d then c.swap else c

/-- Insert an element into an already-sorted list, before the first
element it does not compare greater than (so ties keep the earlier
element first). -/
def orderedInsert (cmp : α → α → Ordering) (x : α) : List α → List α
  | [] => [x]
  | y :: ys =>
    if cmp x y = .gt then y :: orderedInsert cmp x ys else x :: y :: ys

/-- Stable sort by a three-way comparator, modelling lodash `orderBy`
(which breaks comparator ties by original index, hence is stable). -/
def stableSort (cmp : α → α → Ordering) : List α → List α
  | [] => []
  | x :: xs => orderedInsert cmp x (stableSort cmp xs)

/-- The `sortedItems` computed, as a function of its input collection:
identity when no order column is set, otherwise a stable `orderBy` on
the (possibly date) sort key in the configured direction. -/
def sortStep (o : Order) (l : List ExploreItem) : List ExploreItem :=
  match o.column with
  | none => l
  | some col => stableSort (itemCmp o.desc col) l

/-- The `sortedItems` computed applied to the pipeline's
`filteredItems`. -/
def sortedItems (its : List ExploreItem) (tf : List String) (o : Order) : List ExploreItem :=
  sortStep o (filteredItems its tf)

/-- JavaScript `Array.prototype.slice(start, end)` for natural bounds. -/
def jsSlice (l : List α) (s e : Nat) : List α :=
  (l.drop s).take (e - s)

/-- Modelled from the spec: the `usePager` composable (not under src/)
tracks current page (at least 1), page size and total item count. -/
structure Pager where
  page : Nat
  perPage : Nat
  numItem : Nat

/-- Modelled from the spec: the pager's page start offset
`(page - 1) * perPage`. -/
def Pager.start (p : Pager) : Nat := (p.page - 1) * p.perPage

/-- Modelled from the spec: the pager's page end offset
`start + perPage`. -/
def Pager.stop (p : Pager) : Nat := Pager.start p + p.perPage

/-- The `pageItems` computed: `sortedItems.slice(pager.pos.start,
pager.pos.end)`. -/
def pageItems (its : List ExploreItem) (tf : List String) (o : Order) (p : Pager) :
    List ExploreItem :=
  jsSlice (sortedItems its tf o) (Pager.start p) (Pager.stop p)

/-- Column descriptor supplied by the query result. -/
structure ColumnInfo where
  name : String
  isNum : Bool
  isGroup : Bool
  deriving DecidableEq

/-- Modelled from the spec: a query part from `@/use/uql` (not under
src/), opaque to this core. -/
structure QueryPart where
  text : String

/-- The shape of a successful query result consumed by the pipeline. -/
structure QueryResult where
  groups : List ExploreItem
  columns : List ColumnInfo
  queryParts : List QueryPart

/-- The raw `items` computed: `data.value?.groups ?? []`. -/
def items (data : Option QueryResult) : List ExploreItem :=
  (data.map (fun d => d.groups)).getD []

/-- The `columns` computed: `data.value?.columns ?? []`. -/
def columns (data : Option QueryResult) : List ColumnInfo :=
  (data.map (fun d => d.columns)).getD []

/-- The `queryParts` computed: `data.value?.queryParts`, with no
empty-list default, so it is undefined (`none`) when data is absent. -/
def queryParts (data : Option QueryResult) : Option (List QueryPart) :=
  data.map (fun d => d.queryParts)

/-- The `groupColumns` computed: columns with `isGroup`. -/
def groupColumns (data : Option QueryResult) : List ColumnInfo :=
  (columns data).filter (fun col => col.isGroup)

/-- The `plotColumns` computed: columns with `isNum`. -/
def plotColumns (data : Option QueryResult) : List ColumnInfo :=
  (columns data).filter (fun col => col.isNum)

/-- The innermost error payload `response.data`, every field optional. -/
structure ErrorData where
  message : Option String
  code : Option String
  query : Option String

/-- The optional `response` part of a query error. -/
structure ErrorResponse where
  data : Option ErrorData

/-- The opaque query error value, with its optional nesting. -/
structure QueryError where
  response : Option ErrorResponse

/-- The optional-chaining path `error.value?.response?.data`. -/
def errPath (e : Option QueryError) : Option ErrorData :=
  (e.bind (fun q => q.response)).bind (fun r => r.data)

/-- The `errorMessage` computed:
`error.value?.response?.data?.message ?? ''`. -/
def errorMessage (e : Option QueryError) : String :=
  ((errPath e).bind (fun d => d.message)).getD ""

/-- The `errorCode` computed:
`error.value?.response?.data?.code ?? ''`. -/
def errorCode (e : Option QueryError) : String :=
  ((errPath e).bind (fun d => d.code)).getD ""

/-- Modelled from the spec: the external sql-formatter collaborator
(`format` from the sql-formatter package): empty input formats to empty
output and malformed SQL passes through best-effort; modelled as a
pass-through. -/
def format (s : String) : String := s

/-- The `query` computed:
`format(error.value?.response?.data?.query ?? '')`. -/
def queryView (e : Option QueryError) : String :=
  format (((errPath e).bind (fun d => d.query)).getD "")

/-- One entry of the per-type aggregate: a type label and the number of
groups bearing it. -/
structure TypeItem where
  type : String
  numGroup : Nat
  deriving DecidableEq

/-- Update-or-insert into the `typeMap`: the unique entry for the label
is incremented in place, otherwise a fresh entry with count 1 is
appended, so the association list records the property creation
(insertion) order of the JavaScript object's keys. -/
def bumpType : List TypeItem → String → List TypeItem
  | [], t => [{ type := t, numGroup := 1 }]
  | ti :: rest, t =>
    if ti.type == t then { ti with numGroup := ti.numGroup + 1 } :: rest
    else ti :: bumpType rest t

/-- One iteration of the `types` loop: skip items whose system field is
absent or falsy, otherwise bump the classified type's entry. -/
def typesStep (acc : List TypeItem) (item : ExploreItem) : List TypeItem :=
  match getField item xkey.spanSystem with
  | none => acc
  | some system =>
    if !isTruthy system then acc else bumpType acc (classifyVal system)

/-- An ECMAScript array-index property key: the canonical decimal string
(no leading zero except "0" itself, digits only) of a natural number
below 2^32 - 1.  Such keys are enumerated by `for...in` before all
other string keys, in ascending numeric order. -/
def arrayIndexKey (s : String) : Option Nat :=
  match s.data with
  | [] => none
  | c :: cs =>
    match parseDigits (c :: cs) 0 with
    | none => none
    | some n =>
      if (c = '0' ∧ cs ≠ []) ∨ ¬ n < 4294967295 then none else some n

/-- Ascending comparison of two array-index labels by numeric value
(only applied to labels that are array-index keys). -/
def numLabelCmp (a b : String) : Ordering :=
  cmpInt (Int.ofNat ((arrayIndexKey a).getD 0)) (Int.ofNat ((arrayIndexKey b).getD 0))

/-- The comparison `numLabelCmp` lifted to map entries. -/
def numKeyCmp (a b : TypeItem) : Ordering :=
  numLabelCmp a.type b.type

/-- JavaScript `for (let type in typeMap)` enumeration order over the
object's entries: array-index keys first, in ascending numeric order,
then the remaining string keys in property creation (insertion)
order. -/
def forInEnum (m : List TypeItem) : List TypeItem :=
  stableSort numKeyCmp (m.filter (fun ti => (arrayIndexKey ti.type).isSome))
    ++ m.filter (fun ti => (arrayIndexKey ti.type).isNone)

/-- The `types` computed: the aggregation loop over the raw (unfiltered)
items builds the `typeMap`, whose entries the `for...in` loop then
collects in JavaScript key-enumeration order (array-index keys hoisted
first ascending, the rest in insertion order).  The source also calls
`orderBy(types, 'type')` but discards its return value (lodash
`orderBy` does not mutate), so the enumeration order is what is
returned. -/
def types (its : List ExploreItem) : List TypeItem :=
  forInEnum (its.foldl typesStep [])

/-- The classified type label an item contributes to the aggregation,
`none` when its system field is absent or falsy. -/
def classifyStep (item : ExploreItem) : Option String :=
  match getField item xkey.spanSystem with
  | none => none
  | some system =>
    if !isTruthy system then none else some (classifyVal system)

/-- The sequence of classified type labels of an item collection, in
item order. -/
def classifiedTypes (its : List ExploreItem) : List String :=
  its.filterMap classifyStep

/-- One step of first-seen deduplication. -/
def seenStep (seen : List String) (t : String) : List String :=
  if t ∈ seen then seen else seen ++ [t]

/-- First-seen deduplication of a label sequence. -/
def firstSeen (labels : List String) : List String :=
  labels.foldl seenStep []

/-- JavaScript key-enumeration order on a label sequence with distinct
labels: array-index labels first in ascending numeric order, then the
remaining labels in their given order. -/
def forInLabelOrder (labels : List String) : List String :=
  stableSort numLabelCmp (labels.filter (fun t => (arrayIndexKey t).isSome))
    ++ labels.filter (fun t => (arrayIndexKey t).isNone)

/-- The total group count recorded for a label in an aggregate list. -/
def numGroupOf (ts : List TypeItem) (t : String) : Nat :=
  ((ts.filter (fun ti => ti.type == t)).map (fun ti => ti.numGroup)).sum

/-- The mutable state the two `watch` blocks act on: the raw items, the
type filter and the pager. -/
structure ExploreState where
  items : List ExploreItem
  typeFilter : List String
  pager : Pager

/-- The first watcher, `watch(items, ...)`: writes the raw item count
into the pager. -/
def runItemsWatcher (s : ExploreState) : ExploreState :=
  { s with pager := { s.pager with numItem := s.items.length } }

/-- The second watcher, `watch(filteredItems, ...)`: writes the filtered
item count into the pager. -/
def runFilteredItemsWatcher (s : ExploreState) : ExploreState :=
  { s with pager := { s.pager with numItem := (filteredItems s.items s.typeFilter).length } }

/-- A recomputation pass triggered by a change to the raw items: both
watchers fire before any consumer reads, in registration order — the
`items` watcher was registered first, the `filteredItems` watcher
second and therefore last. -/
def passOnItemsChange (s : ExploreState) (newItems : List ExploreItem) : ExploreState :=
  runFilteredItemsWatcher (runItemsWatcher { s with items := newItems })

/-- A recomputation pass triggered by a change to the type filter alone:
only the `filteredItems` watcher fires. -/
def passOnFilterChange (s : ExploreState) (newFilter : List String) : ExploreState :=
  runFilteredItemsWatcher { s with typeFilter := newFilter }

/-- The immediate pass both watchers run at creation, in registration
order. -/
def initialPass (s : ExploreState) : ExploreState :=
  runFilteredItemsWatcher (runItemsWatcher s)

/-- The ordering the specification prescribes for a date-like column:
every unparseable value is treated as the minimum timestamp, epoch 0. -/
def specDateCmp (col : String) (a b : ExploreItem) : Ordering :=
  cmpInt ((dateKey (getField a col)).getD 0) ((dateKey (getField b col)).getD 0)

/-- Ascending-by-label check on an aggregate list. -/
def sortedByType : List TypeItem → Bool
  | [] => true
  | [_] => true
  | a :: b :: rest => (cmpStr a.type b.type != .gt) && sortedByType (b :: rest)

/-- Concrete item with an http-type system field, used at concrete
inputs. -/
def cexHttpItem : ExploreItem := [(xkey.spanSystem, Val.vStr "http.client")]

/-- Concrete item with a db-type system field, used at concrete
inputs. -/
def cexDbItem : ExploreItem := [(xkey.spanSystem, Val.vStr "db.postgres")]

/-- Concrete item whose time field parses to timestamp 5. -/
def cexDateA : ExploreItem := [(xkey.spanTime, Val.vStr "5")]

/-- Concrete item whose time field is unparseable as a date. -/
def cexDateB : ExploreItem := [(xkey.spanTime, Val.vStr "oops")]

/-- Concrete item whose time field parses to timestamp 1. -/
def cexDateC : ExploreItem := [(xkey.spanTime, Val.vStr "1")]

theorem filteredItems_sublist (its : List ExploreItem) (tf : List String) :
    (filteredItems its tf).Sublist its := by
  unfold filteredItems
  split
  · exact List.Sublist.refl its
  · exact List.filter_sublist its

theorem orderedInsert_perm (cmp : α → α → Ordering) (x : α) :
    ∀ l : List α, (orderedInsert cmp x l).Perm (x :: l) := by
  intro l
  induction l with
  | nil => exact List.Perm.refl _
  | cons y ys ih =>
    by_cases h : cmp x y = .gt
    · simp only [orderedInsert, if_pos h]
      exact (ih.cons y).trans (List.Perm.swap x y ys)
    · simp only [orderedInsert, if_neg h]
      exact List.Perm.refl _

theorem stableSort_perm (cmp : α → α → Ordering) :
    ∀ l : List α, (stableSort cmp l).Perm l := by
  intro l
  induction l with
  | nil => exact List.Perm.refl _
  | cons x xs ih =>
    exact (orderedInsert_perm cmp x (stableSort cmp xs)).trans (ih.cons x)

theorem jsSlice_isInfix (l : List α) (s e : Nat) : (jsSlice l s e).IsInfix l := by
  refine ⟨l.take s, (l.drop s).drop (e - s), ?_⟩
  rw [jsSlice, List.append_assoc, List.take_append_drop, List.take_append_drop]

theorem sortStep_perm (o : Order) (l : List ExploreItem) :
    (sortStep o l).Perm l := by
  unfold sortStep
  cases o.column with
  | none => exact List.Perm.refl _
  | some col => exact stableSort_perm _ l

/-- C5: filtering with the empty type-filter set returns the item
collection unchanged. -/
theorem filter_empty_identity (its : List ExploreItem) :
    filteredItems its [] = its := rfl

/-- C6: with a null order column the sort step is the identity. -/
theorem sort_null_column_identity (l : List ExploreItem) (d : Bool) :
    sortStep (Order.mk none d) l = l := rfl

/-- C1: after every recomputation pass — the immediate pass, a raw-items
change (where the raw-count watcher fires first and the filtered-count
watcher fires last), and a type-filter change — the pager's `numItem`
equals the length of the most recently filtered item collection. -/
theorem pager_numItem_filtered (s : ExploreState) (newItems : List ExploreItem)
    (newFilter : List String) :
    (passOnItemsChange s newItems).pager.numItem
        = (filteredItems newItems s.typeFilter).length
    ∧ (passOnFilterChange s newFilter).pager.numItem
        = (filteredItems s.items newFilter).length
    ∧ (initialPass s).pager.numItem
        = (filteredItems s.items s.typeFilter).length :=
  ⟨rfl, rfl, rfl⟩

/-- C3: the paged view is a contiguous infix of the sorted view, the
sorted view is a permutation (same multiset) of the filtered view, and
every element of the filtered view is an element of the raw item
collection. -/
theorem pipeline_round_trip (its : List ExploreItem) (tf : List String) (o : Order)
    (p : Pager) :
    (pageItems its tf o p).IsInfix (sortedItems its tf o)
    ∧ (sortedItems its tf o).Perm (filteredItems its tf)
    ∧ ∀ x ∈ filteredItems its tf, x ∈ its :=
  ⟨jsSlice_isInfix _ _ _, sortStep_perm o _,
   fun _ hx => (filteredItems_sublist its tf).subset hx⟩

/-- C10: when the query result data is absent the public view's items
(the sorted, unpaged collection), page items and columns are all empty,
while queryParts is no value at all rather than an empty list. -/
theorem absent_data_defaults (tf : List String) (o : Order) (p : Pager) :
    sortedItems (items none) tf o = []
    ∧ pageItems (items none) tf o p = []
    ∧ columns none = []
    ∧ queryParts none = none := by
  have hf : filteredItems (items none) tf = [] := by
    unfold filteredItems
    split <;> rfl
  have hs : sortedItems (items none) tf o = [] := by
    unfold sortedItems sortStep
    cases o.column with
    | none => exact hf
    | some col => rw [hf]; rfl
  refine ⟨hs, ?_, rfl, rfl⟩
  rw [pageItems, hs]
  simp [jsSlice]

/-- C4: under a non-empty type filter, an item of the collection appears
in the filtered collection exactly when its system field is absent, or
falsy (empty), or its classified leading type token is a member of the
filter. -/
theorem filter_membership (its : List ExploreItem) (t : String) (rest : List String)
    (item : ExploreItem) :
    item ∈ filteredItems its (t :: rest) ↔
      item ∈ its ∧
        (getField item xkey.spanSystem = none
          ∨ (∃ v, getField item xkey.spanSystem = some v ∧ isTruthy v = false)
          ∨ (∃ v, getField item xkey.spanSystem = some v ∧ isTruthy v = true
                ∧ classifyVal v ∈ t :: rest)) := by
  unfold filteredItems
  rw [if_neg (by simp)]
  rw [List.mem_filter]
  refine and_congr_right fun _ => ?_
  cases hg : getField item xkey.spanSystem with
  | none => simp [hg]
  | some v =>
    cases hv : isTruthy v with
    | false => simp [hg, hv]
    | true => simp [hg, hv]

/-- C9: when the nested `response.data` path of the error value is
entirely absent (including the no-error case), the error projections
all yield the empty string. -/
theorem error_projection_defaults (e : Option QueryError)
    (h : errPath e = none) :
    errorMessage e = "" ∧ errorCode e = "" ∧ queryView e = "" := by
  refine ⟨?_, ?_, ?_⟩ <;> simp [errorMessage, errorCode, queryView, format, h]

/-- Witness for C9 at the concrete no-error input. -/
theorem error_projection_defaults_witness :
    errPath none = none
    ∧ (errorMessage none = "" ∧ errorCode none = "" ∧ queryView none = "") :=
  ⟨rfl, error_projection_defaults none rfl⟩

theorem cmpInt_self (a : Int) : cmpInt a a = .eq := by
  simp [cmpInt]

theorem cmpChar_self (c : Char) : cmpChar c c = .eq := by
  simp [cmpChar]

theorem cmpCharList_self : ∀ l : List Char, cmpCharList l l = .eq
  | [] => rfl
  | a :: as => by
    simp [cmpCharList, cmpChar_self, cmpCharList_self as]

theorem cmpStr_self (a : String) : cmpStr a a = .eq :=
  cmpCharList_self a.data

theorem cmpVal_self (v : Val) : cmpVal v v = .eq := by
  cases v with
  | vStr s => simp [cmpVal, cmpStr_self]
  | vNum n => simp [cmpVal, cmpInt_self]
  | vNull => rfl

theorem cmpKey_self (k : SortKey) : cmpKey k k = .eq := by
  cases k with
  | dKey t =>
    cases t with
    | none => rfl
    | some x => simp [cmpKey, cmpDate, cmpInt_self]
  | rKey v =>
    cases v with
    | none => rfl
    | some x => simp [cmpKey, cmpRaw, cmpVal_self]

theorem itemCmp_eq_of_key_eq (d : Bool) (col : String) (a b : ExploreItem)
    (h : sortKey col a = sortKey col b) : itemCmp d col a b = .eq := by
  unfold itemCmp
  rw [h, cmpKey_self]
  cases d <;> rfl

theorem filter_orderedInsert_pos (cmp : α → α → Ordering) (p : α → Bool) (x : α)
    (hx : p x = true) (h : ∀ y, p y = true → cmp x y ≠ .gt) :
    ∀ l : List α, (orderedInsert cmp x l).filter p = x :: l.filter p := by
  intro l
  induction l with
  | nil => simp [orderedInsert, hx]
  | cons y ys ih =>
    by_cases hgt : cmp x y = .gt
    · have hpy : p y = false := by
        cases hq : p y
        · rfl
        · exact absurd hgt (h y hq)
      simp [orderedInsert, hgt, hpy, ih]
    · simp [orderedInsert, hgt, hx]

theorem filter_orderedInsert_neg (cmp : α → α → Ordering) (p : α → Bool) (x : α)
    (hx : p x = false) :
    ∀ l : List α, (orderedInsert cmp x l).filter p = l.filter p := by
  intro l
  induction l with
  | nil => simp [orderedInsert, hx]
  | cons y ys ih =>
    by_cases hgt : cmp x y = .gt
    · rw [orderedInsert, if_pos hgt, List.filter_cons, List.filter_cons, ih]
    · simp [orderedInsert, hgt, hx]

theorem stableSort_filter (cmp : α → α → Ordering) (p : α → Bool)
    (hcmp : ∀ a b, p a = true → p b = true → cmp a b ≠ .gt) :
    ∀ l : List α, (stableSort cmp l).filter p = l.filter p := by
  intro l
  induction l with
  | nil => rfl
  | cons x xs ih =>
    cases hx : p x
    · rw [stableSort, filter_orderedInsert_neg cmp p x hx, ih]
      simp [hx]
    · rw [stableSort, filter_orderedInsert_pos cmp p x hx (fun y hy => hcmp x y hx hy), ih]
      simp [hx]

/-- C7: the sort step is stable — for any sort-key value, the items whose
key equals it appear in the sorted collection in exactly the relative
order they had in the filtered-but-unsorted input. -/
theorem sort_stable (d : Bool) (col : String) (l : List ExploreItem) (k : SortKey) :
    (sortStep (Order.mk (some col) d) l).filter (fun x => sortKey col x == k)
      = l.filter (fun x => sortKey col x == k) := by
  show (stableSort (itemCmp d col) l).filter _ = _
  refine stableSort_filter _ _ (fun a b ha hb => ?_) l
  have ha' : sortKey col a = k := by simpa using ha
  have hb' : sortKey col b = k := by simpa using hb
  rw [itemCmp_eq_of_key_eq d col a b (ha'.trans hb'.symm)]
  simp

/-- C8 counterexample: sorting ascending on the date-like span time
column, an item with an unparseable time value stays strictly between
items with timestamps 5 and 1, whereas treating it as epoch 0 would put
it first (the spec-prescribed comparator yields a different list). -/
theorem sort_invalid_date_cex :
    sortStep (Order.mk (some xkey.spanTime) false) [cexDateA, cexDateB, cexDateC]
        = [cexDateA, cexDateB, cexDateC]
    ∧ dateKey (getField cexDateA xkey.spanTime) = some 5
    ∧ dateKey (getField cexDateB xkey.spanTime) = none
    ∧ dateKey (getField cexDateC xkey.spanTime) = some 1
    ∧ stableSort (specDateCmp xkey.spanTime) [cexDateA, cexDateB, cexDateC]
        = [cexDateB, cexDateC, cexDateA]
    ∧ ([cexDateA, cexDateB, cexDateC] : List ExploreItem)
        ≠ [cexDateB, cexDateC, cexDateA] := by
  refine ⟨by decide, by decide, by decide, by decide, by decide, by decide⟩

/-- C8 (amended): on a date-like order column items are compared by the
parsed timestamp, but an item whose value is unparseable (an Invalid
Date) compares equal to every item — in both directions and for either
sort direction — rather than as the minimum timestamp, so unparseable
values keep their original relative positions instead of sorting to one
end. -/
theorem sort_date_invalid_equal (d : Bool) (col : String) (a b : ExploreItem)
    (hcol : isDateField col = true)
    (ha : dateKey (getField a col) = none) :
    itemCmp d col a b = .eq ∧ itemCmp d col b a = .eq := by
  have hk : sortKey col a = SortKey.dKey none := by
    simp [sortKey, hcol, ha]
  have hkb : sortKey col b = SortKey.dKey (dateKey (getField b col)) := by
    simp [sortKey, hcol]
  constructor <;>
    · rw [itemCmp, hk, hkb]
      cases hdb : dateKey (getField b col) <;> cases d <;> rfl

/-- Witness for C8 (amended) at concrete items: the unparseable item
compares equal to the item with timestamp 5. -/
theorem sort_date_invalid_equal_witness :
    (isDateField xkey.spanTime = true
      ∧ dateKey (getField cexDateB xkey.spanTime) = none)
    ∧ itemCmp false xkey.spanTime cexDateB cexDateA = .eq
    ∧ itemCmp false xkey.spanTime cexDateA cexDateB = .eq :=
  ⟨⟨by decide, by decide⟩,
   sort_date_invalid_equal false xkey.spanTime cexDateB cexDateA (by decide) (by decide)⟩

theorem foldl_typesStep_eq (its : List ExploreItem) :
    ∀ acc : List TypeItem,
      its.foldl typesStep acc = (classifiedTypes its).foldl bumpType acc := by
  induction its with
  | nil => intro acc; rfl
  | cons i rest ih =>
    intro acc
    rw [List.foldl_cons, ih (typesStep acc i)]
    unfold classifiedTypes
    rw [List.filterMap_cons]
    cases hg : classifyStep i with
    | none =>
      have hstep : typesStep acc i = acc := by
        unfold classifyStep at hg
        unfold typesStep
        cases h : getField i xkey.spanSystem with
        | none => rfl
        | some system =>
          rw [h] at hg
          cases ht : isTruthy system with
          | false => simp [h, ht]
          | true => simp [ht] at hg
      rw [hstep]
    | some t =>
      have hstep : typesStep acc i = bumpType acc t := by
        unfold classifyStep at hg
        unfold typesStep
        cases h : getField i xkey.spanSystem with
        | none => simp [h] at hg
        | some system =>
          rw [h] at hg
          cases ht : isTruthy system with
          | false => simp [ht] at hg
          | true =>
            simp only [ht, Bool.not_true, Bool.false_eq_true, not_false_eq_true,
              if_neg, ite_false, Option.some.injEq] at hg
            simp [h, ht, hg]
      rw [hstep]
      rfl

theorem bumpType_map_type (acc : List TypeItem) (t : String) :
    (bumpType acc t).map (fun ti => ti.type)
      = seenStep (acc.map (fun ti => ti.type)) t := by
  induction acc with
  | nil => rfl
  | cons a rest ih =>
    by_cases h : a.type = t
    · simp [bumpType, seenStep, h]
    · have hb : (a.type == t) = false := by simp [h]
      rw [bumpType]
      rw [if_neg (by simp [h])]
      simp only [List.map_cons]
      rw [ih]
      unfold seenStep
      by_cases hm : t ∈ rest.map (fun ti => ti.type)
      · rw [if_pos hm, if_pos (by simp [hm])]
      · rw [if_neg hm, if_neg (by simp [hm, Ne.symm h])]
        rfl

theorem numGroupOf_cons (a : TypeItem) (l : List TypeItem) (t : String) :
    numGroupOf (a :: l) t
      = (if a.type == t then a.numGroup else 0) + numGroupOf l t := by
  unfold numGroupOf
  rw [List.filter_cons]
  cases h : (a.type == t) with
  | true => simp [h]
  | false => simp [h]

theorem bumpType_numGroupOf (acc : List TypeItem) (u t : String) :
    numGroupOf (bumpType acc u) t
      = numGroupOf acc t + (if u = t then 1 else 0) := by
  induction acc with
  | nil =>
    by_cases h : u = t <;> simp [bumpType, numGroupOf, h]
  | cons a rest ih =>
    by_cases hau : a.type = u
    · rw [bumpType, if_pos (by simp [hau])]
      rw [numGroupOf_cons, numGroupOf_cons]
      by_cases hat : a.type = t
      · have hut : u = t := hau.symm.trans hat
        simp only [hat, beq_self_eq_true, if_pos, if_true, hut]
        omega
      · have hut : ¬ u = t := fun h => hat (hau.trans h)
        have hb : (a.type == t) = false := by simp [hat]
        simp [hb, hut]
    · rw [bumpType, if_neg (by simp [hau])]
      rw [numGroupOf_cons, numGroupOf_cons, ih]
      omega

theorem foldl_bumpType_map (labels : List String) :
    ∀ acc : List TypeItem,
      (labels.foldl bumpType acc).map (fun ti => ti.type)
        = labels.foldl seenStep (acc.map (fun ti => ti.type)) := by
  induction labels with
  | nil => intro acc; rfl
  | cons t ls ih =>
    intro acc
    rw [List.foldl_cons, List.foldl_cons, ih (bumpType acc t), bumpType_map_type]

theorem foldl_bumpType_count (labels : List String) :
    ∀ (acc : List TypeItem) (t : String),
      numGroupOf (labels.foldl bumpType acc) t
        = numGroupOf acc t + labels.count t := by
  induction labels with
  | nil => intro acc t; simp
  | cons u ls ih =>
    intro acc t
    rw [List.foldl_cons, ih (bumpType acc u) t, bumpType_numGroupOf]
    rw [List.count_cons]
    by_cases h : u = t
    · simp [h]
      omega
    · have : (u == t) = false := by simp [h]
      simp [h, this]

theorem map_type_orderedInsert (x : TypeItem) :
    ∀ m : List TypeItem,
      (orderedInsert numKeyCmp x m).map (fun ti => ti.type)
        = orderedInsert numLabelCmp x.type (m.map (fun ti => ti.type)) := by
  intro m
  induction m with
  | nil => rfl
  | cons y ys ih =>
    by_cases h : numLabelCmp x.type y.type = .gt
    · simp [orderedInsert, numKeyCmp, h, ih]
    · simp [orderedInsert, numKeyCmp, h]

theorem map_type_stableSort :
    ∀ m : List TypeItem,
      (stableSort numKeyCmp m).map (fun ti => ti.type)
        = stableSort numLabelCmp (m.map (fun ti => ti.type)) := by
  intro m
  induction m with
  | nil => rfl
  | cons x xs ih =>
    simp only [stableSort, List.map_cons]
    rw [map_type_orderedInsert, ih]

theorem map_type_filter_num (m : List TypeItem) :
    (m.filter (fun ti => (arrayIndexKey ti.type).isSome)).map (fun ti => ti.type)
      = (m.map (fun ti => ti.type)).filter (fun t => (arrayIndexKey t).isSome) := by
  induction m with
  | nil => rfl
  | cons a rest ih =>
    rw [List.filter_cons, List.map_cons, List.filter_cons]
    cases h : (arrayIndexKey a.type).isSome
    · simpa [h] using ih
    · simp [h, ih]

theorem map_type_filter_str (m : List TypeItem) :
    (m.filter (fun ti => (arrayIndexKey ti.type).isNone)).map (fun ti => ti.type)
      = (m.map (fun ti => ti.type)).filter (fun t => (arrayIndexKey t).isNone) := by
  induction m with
  | nil => rfl
  | cons a rest ih =>
    rw [List.filter_cons, List.map_cons, List.filter_cons]
    cases h : (arrayIndexKey a.type).isNone
    · simpa [h] using ih
    · simp [h, ih]

theorem map_type_forInEnum (m : List TypeItem) :
    (forInEnum m).map (fun ti => ti.type)
      = forInLabelOrder (m.map (fun ti => ti.type)) := by
  unfold forInEnum forInLabelOrder
  rw [List.map_append, map_type_stableSort, map_type_filter_num, map_type_filter_str]

theorem forInEnum_perm (m : List TypeItem) : (forInEnum m).Perm m := by
  unfold forInEnum
  have hfc : m.filter (fun ti => (arrayIndexKey ti.type).isNone)
      = m.filter (fun ti => !(arrayIndexKey ti.type).isSome) := by
    apply List.filter_congr
    intro x _
    cases arrayIndexKey x.type <;> rfl
  rw [hfc]
  refine List.Perm.trans (List.Perm.append_right _ (stableSort_perm _ _)) ?_
  exact List.filter_append_perm _ m

theorem numGroupOf_perm {l l' : List TypeItem} (h : l.Perm l') (t : String) :
    numGroupOf l t = numGroupOf l' t := by
  unfold numGroupOf
  exact List.Perm.sum_eq ((h.filter _).map _)

/-- C2 counterexample: for the concrete raw items whose system fields
are "http.client" then "db.postgres", the types aggregation returns the
http entry before the db entry — first-seen order, which is not
ascending by the type label since "db" precedes "http"
lexicographically. -/
theorem types_not_sorted_cex :
    (types [cexHttpItem, cexDbItem]).map (fun ti => ti.type) = ["http", "db"]
    ∧ cmpStr "db" "http" = .lt
    ∧ sortedByType (types [cexHttpItem, cexDbItem]) = false := by
  refine ⟨by decide, by decide, by decide⟩

/-- C2 (amended): the types aggregation returns one entry per distinct
classified type label of the raw items, in JavaScript `for...in` key
enumeration order over the first-seen label sequence — array-index-like
labels first in ascending numeric order, then the remaining labels in
first-seen (insertion) order — not sorted ascending by label, because
the ordered copy the code computes is discarded; and each entry's
numGroup is the number of items bearing that classified label. -/
theorem types_enum_order (its : List ExploreItem) :
    (types its).map (fun ti => ti.type)
        = forInLabelOrder (firstSeen (classifiedTypes its))
    ∧ ∀ t : String, numGroupOf (types its) t = (classifiedTypes its).count t := by
  have hm : (its.foldl typesStep []).map (fun ti => ti.type)
      = firstSeen (classifiedTypes its) := by
    rw [foldl_typesStep_eq its [], foldl_bumpType_map]
    rfl
  constructor
  · rw [types, map_type_forInEnum, hm]
  · intro t
    rw [types, numGroupOf_perm (forInEnum_perm _) t,
      foldl_typesStep_eq its [], foldl_bumpType_count]
    simp [numGroupOf]

end SpanExplore
